import Mathlib

set_option maxHeartbeats 1000000
set_option maxRecDepth 100000

/-!
Shallow embedding of `src/sbi/inference/snl/snl.py` (Sequential Neural
Likelihood): the potential-function provider, the early-stopped likelihood
fitting loop of `SNL._fit_likelihood`, the train/validation split, and the
round loop of `SNL.__call__`.

Tensors are modelled by an explicit shape plus flat integer data; floating
point validation scores are modelled by integers (the code compares and
maximises them, and any strictly increasing sequence of machine floats is
finite, which the integers reflect); the fractions of the train/validation
split are modelled by exact rationals.
-/

/-- A tensor: an explicit shape together with flat data.  The log-probability
collaborators (likelihood estimator and prior) consume only the flat data,
which models the fact that they are insensitive to the shape normalisation
performed by `.reshape(1, -1)` in the potential functions. -/
structure Tensor where
  shape : List Nat
  data : List Int
deriving DecidableEq

/-- `t.reshape(1, -1)`: a single row holding all of the data, in order. -/
def Tensor.reshape_row (t : Tensor) : Tensor :=
  { shape := [1, t.data.length], data := t.data }

/-- The state of `PotentialFunctionProvider` after `__call__` has bound the
likelihood estimator, the prior and the observation.  The two `log_prob`
collaborators are external (density estimator and prior, spec section 6) and
are modelled as arbitrary functions of the flat tensor data. -/
structure PotentialFunctionProvider where
  likelihood_nn_log_prob : List Int → List Int → Int
  prior_log_prob : List Int → Int
  observation : Tensor

/-- `PotentialFunctionProvider.np_potential`: the flat-array potential.  It
receives a raw numeric vector, converts it to a tensor
(`torch.FloatTensor(parameters)`, a rank-1 tensor with the same data), and
returns `log_likelihood + prior.log_prob(parameters)` where the likelihood is
evaluated at `observation.reshape(1, -1)` with context
`parameters.reshape(1, -1)`. -/
def PotentialFunctionProvider.np_potential
    (P : PotentialFunctionProvider) (parameters : List Int) : Int :=
  let t : Tensor := { shape := [parameters.length], data := parameters }
  P.likelihood_nn_log_prob (P.observation.reshape_row).data (t.reshape_row).data
    + P.prior_log_prob t.data

/-- `PotentialFunctionProvider.pyro_potential`: the structured-input potential.
It receives a `{name: tensor, ...}` mapping (modelled as an ordered list of
pairs, matching Python dict iteration order), takes the first value
(`next(iter(parameters.values()))`, which raises `StopIteration` on an empty
mapping, hence `Option`), and returns
`-(log_likelihood + prior.log_prob(parameter))`. -/
def PotentialFunctionProvider.pyro_potential
    (P : PotentialFunctionProvider) (parameters : List (String × Tensor)) :
    Option Int :=
  match parameters with
  | [] => none
  | (_, parameter) :: _ =>
      some (-(P.likelihood_nn_log_prob (P.observation.reshape_row).data
                (parameter.reshape_row).data
              + P.prior_log_prob parameter.data))

/-- The two potential-function variants `PotentialFunctionProvider.__call__`
can return. -/
inductive PotentialKind
  | pyroPotential
  | npPotential
deriving DecidableEq

/-- The dispatch of `PotentialFunctionProvider.__call__`: the pyro potential
for `mcmc_method` in `("slice", "hmc", "nuts")`, and otherwise the numpy
potential. -/
def PotentialFunctionProvider.call_kind (mcmc_method : String) : PotentialKind :=
  if mcmc_method = "slice" ∨ mcmc_method = "hmc" ∨ mcmc_method = "nuts" then
    PotentialKind.pyroPotential
  else
    PotentialKind.npPotential

/-- C1: for a fixed bound provider state, the structured-input (pyro)
potential and the flat-array (numpy) potential are sign-opposites: for every
parameter tensor `p`, `pyro_potential {site: p} = -(np_potential p.data)`,
the flat vector `p.data` being `p` viewed as a vector (shape normalisation is
absorbed by the data-level log-probability collaborators). -/
theorem pyro_np_sign_opposite (P : PotentialFunctionProvider)
    (site : String) (p : Tensor) :
    P.pyro_potential [(site, p)] = some (-(P.np_potential p.data)) := by
  simp [PotentialFunctionProvider.pyro_potential,
    PotentialFunctionProvider.np_potential, Tensor.reshape_row]

/-- C9: any `mcmc_method` outside the recognised set `("slice", "hmc",
"nuts")` falls through the dispatch of `PotentialFunctionProvider.__call__`
and yields the flat-array (numpy) potential; no error is raised. -/
theorem unknown_mcmc_method_falls_through (m : String)
    (h1 : m ≠ "slice") (h2 : m ≠ "hmc") (h3 : m ≠ "nuts") :
    PotentialFunctionProvider.call_kind m = PotentialKind.npPotential := by
  simp [PotentialFunctionProvider.call_kind, h1, h2, h3]

/-- Witness for C9 at the concrete method name "slice-np". -/
theorem unknown_mcmc_method_falls_through_witness :
    "slice-np" ≠ "slice" ∧ "slice-np" ≠ "hmc" ∧ "slice-np" ≠ "nuts" ∧
      PotentialFunctionProvider.call_kind "slice-np" = PotentialKind.npPotential :=
  ⟨by decide, by decide, by decide,
    unknown_mcmc_method_falls_through "slice-np" (by decide) (by decide) (by decide)⟩

/-- C10: the structured-input (pyro) potential evaluates only the first value
of the parameter-site mapping: for every mapping with a first entry
`(site, p)` and arbitrary further entries `rest`, the result equals the
potential of the singleton mapping `{site: p}`; the additional sites are
silently ignored. -/
theorem pyro_potential_first_site_only (P : PotentialFunctionProvider)
    (site : String) (p : Tensor) (rest : List (String × Tensor)) :
    P.pyro_potential ((site, p) :: rest) = P.pyro_potential [(site, p)] := by
  simp [PotentialFunctionProvider.pyro_potential]

/-- `int((1 - validation_fraction) * num_examples)` from `SNL._fit_likelihood`:
the number of training examples.  Python `int()` truncates toward zero; for
the nonnegative products arising from a fraction in `[0, 1]` this is the
floor.  The fraction is modelled as an exact rational. -/
def num_training_examples (validation_fraction : ℚ) (num_examples : Nat) : Nat :=
  (Int.floor ((1 - validation_fraction) * (num_examples : ℚ))).toNat

/-- The training-split size as the claim words it:
`round((1 - validationFraction) * N)`, rounding rather than truncating.
Stated only for comparison with `num_training_examples`, which embeds the
code. -/
def num_training_examples_claimed (validation_fraction : ℚ) (num_examples : Nat) : Nat :=
  (round ((1 - validation_fraction) * (num_examples : ℚ))).toNat

/-- `num_examples - num_training_examples`: the validation split size. -/
def num_validation_examples (validation_fraction : ℚ) (num_examples : Nat) : Nat :=
  num_examples - num_training_examples validation_fraction num_examples

/-- The split of the permuted indices in `SNL._fit_likelihood`:
`train_indices, val_indices = permuted_indices[:num_training_examples],
permuted_indices[num_training_examples:]`. -/
def train_val_split (validation_fraction : ℚ) (permuted_indices : List Nat) :
    List Nat × List Nat :=
  let nt := num_training_examples validation_fraction permuted_indices.length
  (permuted_indices.take nt, permuted_indices.drop nt)

/-- Counterexample to C7 as stated: at `validationFraction = 1/10` and
`N = 995`, the code truncates `(9/10) * 995 = 895.5` to 895 training
examples, while rounding as claimed would give 896. -/
theorem split_rounding_counterexample :
    num_training_examples (1/10) 995 = 895 ∧
      num_training_examples_claimed (1/10) 995 = 896 ∧
      num_training_examples (1/10) 995 ≠ num_training_examples_claimed (1/10) 995 := by
  have hfl : Int.floor ((1 - (1:ℚ)/10) * ((995 : Nat) : ℚ)) = 895 := by
    rw [Int.floor_eq_iff]
    norm_num
  have hrd : round ((1 - (1:ℚ)/10) * ((995 : Nat) : ℚ)) = 896 := by
    rw [round_eq, Int.floor_eq_iff]
    norm_num
  have h1 : num_training_examples (1/10) 995 = 895 := by
    unfold num_training_examples
    rw [hfl]
    rfl
  have h2 : num_training_examples_claimed (1/10) 995 = 896 := by
    unfold num_training_examples_claimed
    rw [hrd]
    rfl
  exact ⟨h1, h2, by omega⟩

/-- C7 amended: the training split is exactly the first
`int((1 - validationFraction) * N)` indices of the permutation — truncated
toward zero (the floor), not rounded — and the validation split is the
remainder; together they still enumerate `0 .. N-1`. -/
theorem train_val_split_structure (f : ℚ) (N : Nat) (perm : List Nat)
    (hlen : perm.length = N) (hperm : perm.Perm (List.range N))
    (h0 : 0 ≤ f) (h1 : f ≤ 1) :
    (train_val_split f perm).1 = perm.take (num_training_examples f N) ∧
    (train_val_split f perm).2 = perm.drop (num_training_examples f N) ∧
    (train_val_split f perm).1.length = num_training_examples f N ∧
    (train_val_split f perm).2.length = N - num_training_examples f N ∧
    ((train_val_split f perm).1 ++ (train_val_split f perm).2).Perm (List.range N) := by
  have hle : num_training_examples f N ≤ N := by
    have hfl : Int.floor ((1 - f) * (N : ℚ)) ≤ (N : ℤ) := by
      have h2 : (1 - f) * (N : ℚ) ≤ (N : ℚ) := by nlinarith [Nat.cast_nonneg (α := ℚ) N]
      calc Int.floor ((1 - f) * (N : ℚ)) ≤ Int.floor ((N : ℚ)) := Int.floor_le_floor h2
        _ = (N : ℤ) := Int.floor_natCast N
    unfold num_training_examples
    omega
  refine ⟨by rw [train_val_split, hlen], by rw [train_val_split, hlen], ?_, ?_, ?_⟩
  · rw [train_val_split, hlen, List.length_take, hlen]
    omega
  · rw [train_val_split, hlen, List.length_drop, hlen]
  · rw [train_val_split, hlen, List.take_append_drop]
    exact hperm

/-- Witness for the amended C7 at `validationFraction = 1/10` and the
concrete permutation `[4, 1, 3, 0, 2]` of `0 .. 4`. -/
theorem train_val_split_structure_witness :
    ([4, 1, 3, 0, 2] : List Nat).length = 5 ∧
    ([4, 1, 3, 0, 2] : List Nat).Perm (List.range 5) ∧
    (0 : ℚ) ≤ 1/10 ∧ (1/10 : ℚ) ≤ 1 ∧
    ((train_val_split (1/10) [4, 1, 3, 0, 2]).1
        = ([4, 1, 3, 0, 2] : List Nat).take (num_training_examples (1/10) 5) ∧
      (train_val_split (1/10) [4, 1, 3, 0, 2]).2
        = ([4, 1, 3, 0, 2] : List Nat).drop (num_training_examples (1/10) 5) ∧
      (train_val_split (1/10) [4, 1, 3, 0, 2]).1.length
        = num_training_examples (1/10) 5 ∧
      (train_val_split (1/10) [4, 1, 3, 0, 2]).2.length
        = 5 - num_training_examples (1/10) 5 ∧
      ((train_val_split (1/10) [4, 1, 3, 0, 2]).1
          ++ (train_val_split (1/10) [4, 1, 3, 0, 2]).2).Perm (List.range 5)) :=
  ⟨by decide, by decide, by norm_num, by norm_num,
    train_val_split_structure (1/10) 5 [4, 1, 3, 0, 2] (by decide) (by decide)
      (by norm_num) (by norm_num)⟩

/-- The failure `SNL._fit_likelihood` runs into when the validation split is
degenerate; the spec names it `DegenerateSplitError`. -/
inductive FitError
  | degenerateSplit
deriving DecidableEq

/-- The validation `DataLoader` of `SNL._fit_likelihood` is created with
`batch_size = min(batch_size, num_examples - num_training_examples)`.
torch rejects a non-positive batch size, so a zero-sized validation split
makes `_fit_likelihood` fail before any training (the failure the spec calls
`DegenerateSplitError`); otherwise the loader is created with the clamped
batch size and training proceeds. -/
def make_val_loader (batch_size : Nat) (validation_fraction : ℚ) (num_examples : Nat) :
    Except FitError Nat :=
  let b := min batch_size (num_validation_examples validation_fraction num_examples)
  if b = 0 then Except.error FitError.degenerateSplit else Except.ok b

/-- Counterexample to C8 as stated: at `validationFraction = 1/10` and
`N = 5` we have `validationFraction * N = 1/2 < 1`, yet the validation split
has one example (`5 - int(4.5) = 1`) and `_fit_likelihood` proceeds to train
rather than failing. -/
theorem degenerate_split_counterexample :
    ((1 : ℚ)/10) * 5 < 1 ∧
      num_validation_examples (1/10) 5 = 1 ∧
      make_val_loader 100 (1/10) 5 = Except.ok 1 := by
  have hfl : Int.floor ((1 - (1:ℚ)/10) * ((5 : Nat) : ℚ)) = 4 := by
    rw [Int.floor_eq_iff]
    norm_num
  have hval : num_validation_examples (1/10) 5 = 1 := by
    unfold num_validation_examples num_training_examples
    rw [hfl]
    rfl
  refine ⟨by norm_num, hval, ?_⟩
  unfold make_val_loader
  rw [hval]
  norm_num

/-- C8 amended: with a positive configured batch size and a fraction in
`[0, 1]`, `_fit_likelihood` fails with the degenerate-split error exactly
when the validation split is empty, i.e. when
`ceil(validationFraction * N) ≤ 0` (equivalently `validationFraction * N ≤ 0`)
— not whenever `validationFraction * N < 1`; otherwise it proceeds. -/
theorem degenerate_split_criterion (batch_size : Nat) (f : ℚ) (N : Nat)
    (hb : 0 < batch_size) (h0 : 0 ≤ f) (h1 : f ≤ 1) :
    (make_val_loader batch_size f N = Except.error FitError.degenerateSplit
      ↔ Int.ceil (f * (N : ℚ)) ≤ 0) := by
  have hceil0 : 0 ≤ Int.ceil (f * (N : ℚ)) :=
    Int.ceil_nonneg (mul_nonneg h0 (Nat.cast_nonneg N))
  have hceilN : Int.ceil (f * (N : ℚ)) ≤ (N : ℤ) := by
    rw [Int.ceil_le]
    push_cast
    nlinarith [Nat.cast_nonneg (α := ℚ) N]
  have hfloor : Int.floor ((1 - f) * (N : ℚ)) = (N : ℤ) - Int.ceil (f * (N : ℚ)) := by
    have hrw : (1 - f) * (N : ℚ) = ((N : ℤ) : ℚ) + (-(f * (N : ℚ))) := by
      push_cast
      ring
    rw [hrw, Int.floor_int_add, Int.floor_neg]
    ring
  have hval : num_validation_examples f N = (Int.ceil (f * (N : ℚ))).toNat := by
    unfold num_validation_examples num_training_examples
    rw [hfloor]
    omega
  unfold make_val_loader
  rw [hval]
  by_cases hc : min batch_size (Int.ceil (f * (N : ℚ))).toNat = 0
  · rw [if_pos hc]
    simp only [true_iff]
    omega
  · rw [if_neg hc]
    constructor
    · intro hcontra
      exact absurd hcontra (by simp)
    · intro hle
      omega

/-- Witness for the amended C8 at `batch_size = 100`, `validationFraction = 0`
and `N = 3`: the validation split is empty and the loader construction
fails. -/
theorem degenerate_split_criterion_witness :
    0 < 100 ∧ (0 : ℚ) ≤ 0 ∧ (0 : ℚ) ≤ 1 ∧
      (make_val_loader 100 0 3 = Except.error FitError.degenerateSplit
        ↔ Int.ceil ((0 : ℚ) * ((3 : Nat) : ℚ)) ≤ 0) :=
  ⟨by norm_num, le_refl 0, by norm_num,
    degenerate_split_criterion 100 0 3 (by norm_num) (le_refl 0) (by norm_num)⟩

/-- The sentinel `best_validation_log_prob = -1e100` from
`SNL._fit_likelihood`. -/
def initBest : Int := -(10 ^ 100)

/-- The per-call training state of `SNL._fit_likelihood` (the TrainingState of
the spec): the best validation log probability seen so far, the number of
epochs since the last improvement, the deep copy of the best state dict, and
the epoch counter.  `M` is the abstract type of network state dicts. -/
structure FitState (M : Type) where
  best : Int
  stall : Nat
  bestDict : Option M
  epochs : Nat
deriving DecidableEq

/-- The state just before the `while True` loop: sentinel best, zero stall
counter, no snapshot, zero epochs. -/
def initFitState (M : Type) : FitState M :=
  { best := initBest, stall := 0, bestDict := none, epochs := 0 }

/-- One iteration of the `while True` loop body of `SNL._fit_likelihood`,
without the stopping check.  The training pass over the train loader mutates
the network through the external optimiser, so the sequence of trained
networks is an arbitrary function `net` of the epoch index, and the
validation pass is an arbitrary scorer `val` of the current network: epoch
`s.epochs` trains the network into `net s.epochs`, the epoch counter is
incremented, and the validation score of the current network is compared
with the best seen so far — a strict improvement stores the new best,
resets the stall counter to 0 and deep-copies the state dict, while any
other epoch increments the stall counter. -/
def epochStep {M : Type} (val : M → Int) (net : Nat → M) (s : FitState M) :
    FitState M :=
  if val (net s.epochs) > s.best then
    { best := val (net s.epochs), stall := 0, bestDict := some (net s.epochs),
      epochs := s.epochs + 1 }
  else
    { best := s.best, stall := s.stall + 1, bestDict := s.bestDict,
      epochs := s.epochs + 1 }

/-- The `while True` loop of `SNL._fit_likelihood`, with explicit fuel since
the source loop has no epoch cap: after each epoch, if
`epochs_since_last_improvement > stop_after_epochs - 1` the loop loads the
best state dict and breaks, returning the final state; otherwise it
continues.  `none` means the fuel ran out before the stopping criterion
fired.  The comparison is over the integers, matching Python where
`stop_after_epochs - 1` may be negative. -/
def fitRun {M : Type} (val : M → Int) (net : Nat → M) (stop_after_epochs : Nat) :
    Nat → FitState M → Option (FitState M)
  | 0, _ => none
  | fuel + 1, s =>
    if ((epochStep val net s).stall : Int) > (stop_after_epochs : Int) - 1 then
      some (epochStep val net s)
    else
      fitRun val net stop_after_epochs fuel (epochStep val net s)

/-- The loop state after `k` unchecked iterations of the loop body. -/
def stateAt {M : Type} (val : M → Int) (net : Nat → M) : Nat → FitState M
  | 0 => initFitState M
  | k + 1 => epochStep val net (stateAt val net k)

/-- The running maximum of the validation scores of epochs `0 .. k-1`,
seeded with the sentinel. -/
def bestUpTo {M : Type} (val : M → Int) (net : Nat → M) : Nat → Int
  | 0 => initBest
  | k + 1 => max (bestUpTo val net k) (val (net k))

/-- Epoch `k` strictly improves the validation score over everything seen
before it (including the sentinel). -/
def improvingAt {M : Type} (val : M → Int) (net : Nat → M) (k : Nat) : Prop :=
  bestUpTo val net k < val (net k)

instance {M : Type} (val : M → Int) (net : Nat → M) (k : Nat) :
    Decidable (improvingAt val net k) :=
  inferInstanceAs (Decidable (bestUpTo val net k < val (net k)))

/-- The value of the stall counter after `k` iterations, computed from the
improvement pattern alone. -/
def stallSpec {M : Type} (val : M → Int) (net : Nat → M) : Nat → Nat
  | 0 => 0
  | k + 1 => if improvingAt val net k then 0 else stallSpec val net k + 1

/-- The snapshot held after `k` iterations: the network of the most recent
improving epoch, if any. -/
def snapSpec {M : Type} (val : M → Int) (net : Nat → M) : Nat → Option M
  | 0 => none
  | k + 1 => if improvingAt val net k then some (net k) else snapSpec val net k

theorem stateAt_spec {M : Type} (val : M → Int) (net : Nat → M) (k : Nat) :
    stateAt val net k =
      { best := bestUpTo val net k, stall := stallSpec val net k,
        bestDict := snapSpec val net k, epochs := k } := by
  induction k with
  | zero => rfl
  | succ k ih =>
    rw [stateAt, ih]
    by_cases h : improvingAt val net k
    · have hlt : val (net k) > bestUpTo val net k := h
      simp only [epochStep, if_pos hlt, bestUpTo, stallSpec, snapSpec, if_pos h]
      rw [max_eq_right (le_of_lt hlt)]
    · have hle : ¬ (val (net k) > bestUpTo val net k) := h
      simp only [epochStep, if_neg hle, bestUpTo, stallSpec, snapSpec, if_neg h]
      rw [max_eq_left (not_lt.mp hle)]

theorem stallSpec_no_improving {M : Type} (val : M → Int) (net : Nat → M) :
    ∀ n, (∀ j, j < n → ¬ improvingAt val net j) → stallSpec val net n = n := by
  intro n
  induction n with
  | zero => intro _; rfl
  | succ n ih =>
    intro h
    rw [stallSpec, if_neg (h n (Nat.lt_succ_self n)),
      ih (fun j hj => h j (by omega))]

theorem stallSpec_last_improving {M : Type} (val : M → Int) (net : Nat → M)
    (L : Nat) (hL : improvingAt val net L) :
    ∀ n, L < n → (∀ j, L < j → j < n → ¬ improvingAt val net j) →
      stallSpec val net n = n - (L + 1) := by
  intro n
  induction n with
  | zero => intro h; omega
  | succ n ih =>
    intro hLn hall
    by_cases h : L < n
    · have hni : ¬ improvingAt val net n := hall n h (Nat.lt_succ_self n)
      rw [stallSpec, if_neg hni, ih h (fun j h1 h2 => hall j h1 (by omega))]
      omega
    · have hLeq : L = n := by omega
      subst hLeq
      rw [stallSpec, if_pos hL]
      omega

theorem snapSpec_last_improving {M : Type} (val : M → Int) (net : Nat → M)
    (L : Nat) (hL : improvingAt val net L) :
    ∀ n, L < n → (∀ j, L < j → j < n → ¬ improvingAt val net j) →
      snapSpec val net n = some (net L) := by
  intro n
  induction n with
  | zero => intro h; omega
  | succ n ih =>
    intro hLn hall
    by_cases h : L < n
    · have hni : ¬ improvingAt val net n := hall n h (Nat.lt_succ_self n)
      rw [snapSpec, if_neg hni, ih h (fun j h1 h2 => hall j h1 (by omega))]
    · have hLeq : L = n := by omega
      subst hLeq
      rw [snapSpec, if_pos hL]

theorem bestUpTo_last_improving {M : Type} (val : M → Int) (net : Nat → M)
    (L : Nat) (hL : improvingAt val net L) :
    ∀ n, L < n → (∀ j, L < j → j < n → ¬ improvingAt val net j) →
      bestUpTo val net n = val (net L) := by
  intro n
  induction n with
  | zero => intro h; omega
  | succ n ih =>
    intro hLn hall
    by_cases h : L < n
    · have hni : ¬ improvingAt val net n := hall n h (Nat.lt_succ_self n)
      have hle : val (net n) ≤ bestUpTo val net n := not_lt.mp hni
      rw [bestUpTo, max_eq_left hle, ih h (fun j h1 h2 => hall j h1 (by omega))]
    · have hLeq : L = n := by omega
      subst hLeq
      rw [bestUpTo, max_eq_right (le_of_lt hL)]

theorem bestUpTo_le {M : Type} (val : M → Int) (net : Nat → M) :
    ∀ j n, j ≤ n → bestUpTo val net j ≤ bestUpTo val net n := by
  intro j n
  induction n with
  | zero => intro h; rw [Nat.le_zero.mp h]
  | succ n ih =>
    intro h
    by_cases hj : j = n + 1
    · rw [hj]
    · calc bestUpTo val net j ≤ bestUpTo val net n := ih (by omega)
        _ ≤ bestUpTo val net (n + 1) := by rw [bestUpTo]; exact le_max_left _ _

theorem val_le_bestUpTo_succ {M : Type} (val : M → Int) (net : Nat → M)
    (j : Nat) : val (net j) ≤ bestUpTo val net (j + 1) := by
  rw [bestUpTo]
  exact le_max_right _ _

theorem fitRun_stateAt {M : Type} (val : M → Int) (net : Nat → M) (A : Nat) :
    ∀ fuel k s, fitRun val net A fuel (stateAt val net k) = some s →
      ∃ E, k < E ∧ s = stateAt val net E ∧
        ((stallSpec val net E : Int) > (A : Int) - 1) ∧
        ∀ j, k < j → j < E → ¬ ((stallSpec val net j : Int) > (A : Int) - 1) := by
  intro fuel
  induction fuel with
  | zero =>
    intro k s h
    exact absurd h (by rw [fitRun]; exact Option.noConfusion)
  | succ fuel ih =>
    intro k s h
    rw [fitRun] at h
    rw [show epochStep val net (stateAt val net k) = stateAt val net (k + 1) from rfl] at h
    by_cases hc : (((stateAt val net (k + 1)).stall : Int) > (A : Int) - 1)
    · rw [if_pos hc] at h
      have hcs : ((stallSpec val net (k + 1) : Int) > (A : Int) - 1) := by
        rwa [stateAt_spec] at hc
      refine ⟨k + 1, Nat.lt_succ_self k, (Option.some.injEq _ _ ▸ h).symm, hcs, ?_⟩
      intro j h1 h2
      omega
    · rw [if_neg hc] at h
      obtain ⟨E, hkE, hsE, hstop, hmin⟩ := ih (k + 1) s h
      have hcs : ¬ ((stallSpec val net (k + 1) : Int) > (A : Int) - 1) := by
        rwa [stateAt_spec] at hc
      refine ⟨E, by omega, hsE, hstop, ?_⟩
      intro j h1 h2
      by_cases hj : j = k + 1
      · rw [hj]; exact hcs
      · exact hmin j (by omega) h2

theorem fitRun_characterization {M : Type} (val : M → Int) (net : Nat → M)
    (A fuel : Nat) (s : FitState M) (hA : 1 ≤ A)
    (h : fitRun val net A fuel (initFitState M) = some s) :
    ∃ E, s = stateAt val net E ∧ s.epochs = E ∧
      ((∃ L, improvingAt val net L ∧ E = L + 1 + A ∧
          ∀ j, L < j → j < E → ¬ improvingAt val net j)
        ∨ (E = A ∧ ∀ j, j < E → ¬ improvingAt val net j)) := by
  obtain ⟨E, hE0, hsE, hstop, hmin⟩ := fitRun_stateAt val net A fuel 0 s h
  have hsepochs : s.epochs = E := by rw [hsE, stateAt_spec]
  have hstopN : A ≤ stallSpec val net E := by omega
  have hminN : ∀ j, 0 < j → j < E → stallSpec val net j < A := by
    intro j h1 h2
    have h3 := hmin j h1 h2
    omega
  refine ⟨E, hsE, hsepochs, ?_⟩
  by_cases himp : ∃ j, j < E ∧ improvingAt val net j
  · left
    obtain ⟨j0, hj0E, hj0⟩ := himp
    have hL : improvingAt val net
        (Nat.findGreatest (fun i => improvingAt val net i) (E - 1)) :=
      Nat.findGreatest_spec (by omega) hj0
    set L := Nat.findGreatest (fun i => improvingAt val net i) (E - 1) with hLdef
    have hLle : L ≤ E - 1 := Nat.findGreatest_le (E - 1)
    have hLE : L < E := by omega
    have hgre : ∀ j, L < j → j < E → ¬ improvingAt val net j := by
      intro j hLj hjE
      exact Nat.findGreatest_is_greatest hLj (by omega)
    have hstallE : stallSpec val net E = E - (L + 1) :=
      stallSpec_last_improving val net L hL E hLE hgre
    have hge : L + 1 + A ≤ E := by omega
    have hEeq : E = L + 1 + A := by
      by_contra hne
      have hlt : L + 1 + A < E := by omega
      have hj : stallSpec val net (L + 1 + A) = A := by
        rw [stallSpec_last_improving val net L hL (L + 1 + A) (by omega)
          (fun j hj1 hj2 => hgre j hj1 (by omega))]
        omega
      have h4 := hminN (L + 1 + A) (by omega) hlt
      omega
    exact ⟨L, hL, hEeq, hgre⟩
  · right
    push_neg at himp
    have hstallE : stallSpec val net E = E := stallSpec_no_improving val net E himp
    have hle : A ≤ E := by omega
    have hEeq : E = A := by
      by_contra hne
      have hlt : A < E := by omega
      have hj : stallSpec val net A = A :=
        stallSpec_no_improving val net A (fun j hjA => himp j (by omega))
      have h4 := hminN A (by omega) hlt
      omega
    exact ⟨hEeq, himp⟩

/-- C2: the early-stopping rule of `SNL._fit_likelihood`.  If the loop
returns (for any fuel), then either there was a last strictly-improving epoch
`L` (0-indexed) and the loop ran exactly `L + 1 + stop_after_epochs` epochs —
i.e. it halted exactly `stop_after_epochs` consecutive non-improving epochs
after the last strict improvement (which reset the stall counter and
snapshotted the model) — or no epoch ever improved on the sentinel and the
loop halted after `stop_after_epochs` epochs. -/
theorem early_stopping_rule {M : Type} (val : M → Int) (net : Nat → M)
    (stop_after_epochs fuel : Nat) (s : FitState M)
    (hA : 1 ≤ stop_after_epochs)
    (h : fitRun val net stop_after_epochs fuel (initFitState M) = some s) :
    (∃ L, improvingAt val net L ∧ s.epochs = L + 1 + stop_after_epochs ∧
        ∀ j, L < j → j < s.epochs → ¬ improvingAt val net j)
      ∨ (s.epochs = stop_after_epochs ∧
          ∀ j, j < s.epochs → ¬ improvingAt val net j) := by
  obtain ⟨E, hsE, hsep, hcase⟩ :=
    fitRun_characterization val net stop_after_epochs fuel s hA h
  rcases hcase with ⟨L, hL, hEeq, hgre⟩ | ⟨hEeq, hno⟩
  · left
    exact ⟨L, hL, by omega, fun j h1 h2 => hgre j h1 (by omega)⟩
  · right
    exact ⟨by omega, fun j hj => hno j (by omega)⟩

/-- A concrete network-state trajectory for the fit-loop witnesses: state
dicts are integers; epoch 0 produces state 0, every later epoch produces
state -5. -/
def netEx : Nat → Int := fun k => if k = 0 then 0 else -5

/-- A concrete validation scorer for the fit-loop witnesses: the state dict
itself. -/
def valEx : Int → Int := fun m => m

/-- The state the loop reaches on `valEx`/`netEx` with
`stop_after_epochs = 2`: epoch 0 improves (score 0), epochs 1 and 2 stall,
and the loop stops after 3 epochs with the epoch-0 snapshot. -/
def finalEx : FitState Int :=
  { best := 0, stall := 2, bestDict := some 0, epochs := 3 }

/-- Witness for C2 on the concrete trajectory `valEx`/`netEx` with
`stop_after_epochs = 2`: the loop stops after `0 + 1 + 2 = 3` epochs, two
non-improving epochs after the improvement at epoch 0. -/
theorem early_stopping_rule_witness :
    1 ≤ 2 ∧ fitRun valEx netEx 2 5 (initFitState Int) = some finalEx ∧
      ((∃ L, improvingAt valEx netEx L ∧ finalEx.epochs = L + 1 + 2 ∧
          ∀ j, L < j → j < finalEx.epochs → ¬ improvingAt valEx netEx j)
        ∨ (finalEx.epochs = 2 ∧
            ∀ j, j < finalEx.epochs → ¬ improvingAt valEx netEx j)) :=
  ⟨by norm_num, by decide,
    early_stopping_rule valEx netEx 2 5 finalEx (by norm_num) (by decide)⟩

/-- C3: when `SNL._fit_likelihood` returns (and at least one epoch strictly
improved, so that a snapshot exists), the state dict it loads into the live
network is the deep-copied snapshot `net L` of the epoch `L` whose validation
score is the recorded best — maximal among all epochs run — and `L` lies
strictly before the final epoch `s.epochs - 1`, so the restored parameters
are not the ones produced by the last epoch of optimisation. -/
theorem best_model_restored {M : Type} (val : M → Int) (net : Nat → M)
    (stop_after_epochs fuel : Nat) (s : FitState M)
    (hA : 1 ≤ stop_after_epochs)
    (h : fitRun val net stop_after_epochs fuel (initFitState M) = some s)
    (himp : ∃ k, k < s.epochs ∧ improvingAt val net k) :
    ∃ L, s.bestDict = some (net L) ∧ val (net L) = s.best ∧
      (∀ j, j < s.epochs → val (net j) ≤ val (net L)) ∧
      L + 1 < s.epochs := by
  obtain ⟨E, hsE, hsep, hcase⟩ :=
    fitRun_characterization val net stop_after_epochs fuel s hA h
  rcases hcase with ⟨L, hL, hEeq, hgre⟩ | ⟨hEeq, hno⟩
  · have hLE : L < E := by omega
    refine ⟨L, ?_, ?_, ?_, by omega⟩
    · rw [hsE, stateAt_spec]
      exact snapSpec_last_improving val net L hL E hLE hgre
    · rw [hsE, stateAt_spec]
      exact (bestUpTo_last_improving val net L hL E hLE hgre).symm
    · intro j hj
      calc val (net j) ≤ bestUpTo val net (j + 1) := val_le_bestUpTo_succ val net j
        _ ≤ bestUpTo val net E := bestUpTo_le val net (j + 1) E (by omega)
        _ = val (net L) := bestUpTo_last_improving val net L hL E hLE hgre
  · exfalso
    obtain ⟨k, hk, hki⟩ := himp
    exact hno k (by omega) hki

/-- Witness for C3 on the concrete trajectory `valEx`/`netEx` with
`stop_after_epochs = 2`: the loaded snapshot is the epoch-0 state dict, the
best of the three epochs run, not the state of the final epoch. -/
theorem best_model_restored_witness :
    1 ≤ 2 ∧ fitRun valEx netEx 2 5 (initFitState Int) = some finalEx ∧
      (∃ k, k < finalEx.epochs ∧ improvingAt valEx netEx k) ∧
      (∃ L, finalEx.bestDict = some (netEx L) ∧ valEx (netEx L) = finalEx.best ∧
        (∀ j, j < finalEx.epochs → valEx (netEx j) ≤ valEx (netEx L)) ∧
        L + 1 < finalEx.epochs) :=
  ⟨by norm_num, by decide, ⟨0, by decide, by decide⟩,
    best_model_restored valEx netEx 2 5 finalEx (by norm_num) (by decide)
      ⟨0, by decide, by decide⟩⟩

/-- C4: although the `while True` loop of `SNL._fit_likelihood` has no
maximum-epoch cap, it terminates in finitely many epochs whenever the
validation scores are bounded above and `stop_after_epochs` is a positive
integer: some finite fuel makes the loop return. -/
theorem fit_terminates {M : Type} (val : M → Int) (net : Nat → M)
    (stop_after_epochs : Nat) (B : Int)
    (hA : 1 ≤ stop_after_epochs) (hB : ∀ k, val (net k) ≤ B) :
    ∃ fuel s, fitRun val net stop_after_epochs fuel (initFitState M) = some s := by
  have key : ∀ n s,
      (B + 1 - FitState.best s).toNat * stop_after_epochs
          + (stop_after_epochs - FitState.stall s) < n →
      FitState.stall s < stop_after_epochs →
      ∃ t, fitRun val net stop_after_epochs n s = some t := by
    intro n
    induction n with
    | zero =>
      intro s h1 _
      exact absurd h1 (Nat.not_lt_zero _)
    | succ n ih =>
      intro s hmu hstall
      rw [fitRun]
      by_cases hc : (((epochStep val net s).stall : Int)
          > (stop_after_epochs : Int) - 1)
      · rw [if_pos hc]
        exact ⟨epochStep val net s, rfl⟩
      · rw [if_neg hc]
        by_cases himp : val (net s.epochs) > s.best
        · have hvB : val (net s.epochs) ≤ B := hB s.epochs
          have ht : (B + 1 - val (net s.epochs)).toNat + 1
              ≤ (B + 1 - s.best).toNat := by omega
          have hmul : ((B + 1 - val (net s.epochs)).toNat + 1) * stop_after_epochs
              ≤ (B + 1 - s.best).toNat * stop_after_epochs :=
            Nat.mul_le_mul_right stop_after_epochs ht
          rw [Nat.succ_mul] at hmul
          apply ih
          · simp only [epochStep, if_pos himp]
            omega
          · simp only [epochStep, if_pos himp]
            omega
        · have hc1 : ¬ (((s.stall + 1 : Nat) : Int)
              > (stop_after_epochs : Int) - 1) := by
            simpa only [epochStep, if_neg himp] using hc
          apply ih
          · simp only [epochStep, if_neg himp]
            omega
          · simp only [epochStep, if_neg himp]
            omega
  obtain ⟨t, ht⟩ := key
    ((B + 1 - FitState.best (initFitState M)).toNat * stop_after_epochs
        + (stop_after_epochs - FitState.stall (initFitState M)) + 1)
    (initFitState M) (Nat.lt_succ_self _) (by simp [initFitState]; omega)
  exact ⟨_, t, ht⟩

/-- Witness for C4 on the concrete trajectory `valEx`/`netEx`, whose scores
are bounded above by 0, with `stop_after_epochs = 1`. -/
theorem fit_terminates_witness :
    1 ≤ 1 ∧ (∀ k, valEx (netEx k) ≤ 0) ∧
      ∃ fuel s, fitRun valEx netEx 1 fuel (initFitState Int) = some s :=
  ⟨le_refl 1, fun k => by unfold valEx netEx; split <;> norm_num,
    fit_terminates valEx netEx 1 0 (le_refl 1)
      (fun k => by unfold valEx netEx; split <;> norm_num)⟩

/-- The bank state of `SNL`: `self._parameter_bank` and
`self._observation_bank`, one tensor of parameter vectors / observation
vectors per completed round.  Vectors are flat integer lists. -/
structure SNLState where
  parameter_bank : List (List (List Int))
  observation_bank : List (List (List Int))
deriving DecidableEq

/-- `SNL.__init__`: both banks start empty. -/
def initSNLState : SNLState := { parameter_bank := [], observation_bank := [] }

/-- Modelled from the spec: `simulate_in_batches` (from `sbi.simulators`,
whose source is not under src/).  By the BatchedSimulationRunner contract of
spec section 6, given a parameter-sampling function and a total sample count
it returns pooled `(parameters, observations)` pairs aligned 1:1, the
observations being the simulator outputs for the drawn parameters; the batch
size only determines how many parameters are handed to the simulator per
call, not the pooled result, so it is omitted here. -/
def simulate_in_batches (simulator : List Int → List Int)
    (parameter_sample_fn : Nat → List (List Int)) (num_samples : Nat) :
    List (List Int) × List (List Int) :=
  let parameters := parameter_sample_fn num_samples
  (parameters, parameters.map simulator)

/-- Modelled from the spec: `prior.sample((n,))` of the external prior (spec
section 6, `sample(shape) -> tensor`) returns exactly `n` parameter vectors;
the i-th draw of the run is an arbitrary function of `i`. -/
def priorSampleFn (priorDraw : Nat → List Int) (num_samples : Nat) :
    List (List Int) :=
  (List.range num_samples).map priorDraw

/-- Modelled from the spec: `self._neural_posterior.sample(n)` (spec section
4.4) returns exactly `n` parameter vectors from the current posterior; the
posterior reflects the training done so far, so the draw is also a function
of the round index. -/
def posteriorSampleFn (posteriorDraw : Nat → Nat → List Int) (round_ : Nat)
    (num_samples : Nat) : List (List Int) :=
  (List.range num_samples).map (posteriorDraw round_)

/-- One iteration of the round loop of `SNL.__call__`: round 0 simulates at
parameters drawn from the prior, every later round at parameters drawn from
the current posterior, and the `(parameters, observations)` pair is appended
to the banks.  The call to `_fit_likelihood` mutates only the density
estimator (reflected in the round index handed to the posterior draw), never
the banks. -/
def snlRound (simulator : List Int → List Int) (priorDraw : Nat → List Int)
    (posteriorDraw : Nat → Nat → List Int) (num_simulations_per_round : Nat)
    (round_ : Nat) (s : SNLState) : SNLState :=
  let pair :=
    if round_ = 0 then
      simulate_in_batches simulator (priorSampleFn priorDraw)
        num_simulations_per_round
    else
      simulate_in_batches simulator (posteriorSampleFn posteriorDraw round_)
        num_simulations_per_round
  { parameter_bank := s.parameter_bank ++ [pair.1],
    observation_bank := s.observation_bank ++ [pair.2] }

/-- The round loop of `SNL.__call__`, run for the given number of rounds
from the empty banks. -/
def snlRun (simulator : List Int → List Int) (priorDraw : Nat → List Int)
    (posteriorDraw : Nat → Nat → List Int) (num_simulations_per_round : Nat) :
    Nat → SNLState
  | 0 => initSNLState
  | r + 1 =>
      snlRound simulator priorDraw posteriorDraw num_simulations_per_round r
        (snlRun simulator priorDraw posteriorDraw num_simulations_per_round r)

theorem snlRun_banks (sim : List Int → List Int) (pd : Nat → List Int)
    (qd : Nat → Nat → List Int) (n : Nat) :
    ∀ k, (snlRun sim pd qd n k).parameter_bank
        = (List.range k).map (fun r =>
            if r = 0 then priorSampleFn pd n else posteriorSampleFn qd r n)
      ∧ (snlRun sim pd qd n k).observation_bank
        = (List.range k).map (fun r =>
            (if r = 0 then priorSampleFn pd n
             else posteriorSampleFn qd r n).map sim) := by
  intro k
  induction k with
  | zero => exact ⟨rfl, rfl⟩
  | succ k ih =>
    obtain ⟨ih1, ih2⟩ := ih
    have hrange : List.range (k + 1) = List.range k ++ [k] := List.range_succ k
    by_cases hk : k = 0
    · subst hk
      constructor
      · simp [snlRun, snlRound, simulate_in_batches, initSNLState,
          show List.range 1 = [0] from rfl, ih1]
      · simp [snlRun, snlRound, simulate_in_batches, initSNLState,
          show List.range 1 = [0] from rfl, ih2]
    · constructor
      · rw [snlRun]
        simp [snlRound, simulate_in_batches, hk, ih1, hrange]
      · rw [snlRun]
        simp [snlRound, simulate_in_batches, hk, ih2, hrange]

/-- C5: in the round loop of `SNL.__call__`, the parameters simulated in
round 0 are those drawn from the prior, and in every round `r >= 1` they are
those drawn from the current posterior: the sampling source switches exactly
at round index 1 and never before. -/
theorem sampling_source_switch (sim : List Int → List Int)
    (priorDraw : Nat → List Int) (posteriorDraw : Nat → Nat → List Int)
    (n num_rounds r : Nat) (hr : r < num_rounds) :
    (snlRun sim priorDraw posteriorDraw n num_rounds).parameter_bank[r]?
      = some (if r = 0 then priorSampleFn priorDraw n
              else posteriorSampleFn posteriorDraw r n) := by
  rw [(snlRun_banks sim priorDraw posteriorDraw n num_rounds).1,
    List.getElem?_map, List.getElem?_range hr]
  rfl

/-- A concrete simulator for the orchestrator witnesses. -/
def simEx : List Int → List Int := fun v => v.map (fun x => x + 1)

/-- A concrete prior draw for the orchestrator witnesses. -/
def priorDrawEx : Nat → List Int := fun i => [(i : Int)]

/-- A concrete round-indexed posterior draw for the orchestrator
witnesses. -/
def posteriorDrawEx : Nat → Nat → List Int := fun r i => [(r : Int), (i : Int)]

/-- Witness for C5 with two rounds: round 1 draws from the posterior. -/
theorem sampling_source_switch_witness :
    1 < 2 ∧
      (snlRun simEx priorDrawEx posteriorDrawEx 3 2).parameter_bank[1]?
        = some (if 1 = 0 then priorSampleFn priorDrawEx 3
                else posteriorSampleFn posteriorDrawEx 1 3) :=
  ⟨by norm_num,
    sampling_source_switch simEx priorDrawEx posteriorDrawEx 3 2 1 (by norm_num)⟩

/-- C6: the banks of `SNL` start empty, each completed round appends exactly
one entry to each bank and never removes or rewrites earlier entries (the
bank after `k` rounds is a prefix of the bank after `k + 1` rounds), so after
`k` rounds both banks have length `k`; and every round entry holds exactly
`num_simulations_per_round` parameter vectors and equally many observation
vectors. -/
theorem bank_lifecycle (sim : List Int → List Int) (priorDraw : Nat → List Int)
    (posteriorDraw : Nat → Nat → List Int) (n k r : Nat) (hr : r < k) :
    (snlRun sim priorDraw posteriorDraw n 0).parameter_bank = [] ∧
    (snlRun sim priorDraw posteriorDraw n 0).observation_bank = [] ∧
    (snlRun sim priorDraw posteriorDraw n k).parameter_bank.length = k ∧
    (snlRun sim priorDraw posteriorDraw n k).observation_bank.length = k ∧
    (snlRun sim priorDraw posteriorDraw n (k + 1)).parameter_bank.take k
      = (snlRun sim priorDraw posteriorDraw n k).parameter_bank ∧
    (snlRun sim priorDraw posteriorDraw n (k + 1)).observation_bank.take k
      = (snlRun sim priorDraw posteriorDraw n k).observation_bank ∧
    ((snlRun sim priorDraw posteriorDraw n k).parameter_bank[r]?).map
        List.length = some n ∧
    ((snlRun sim priorDraw posteriorDraw n k).observation_bank[r]?).map
        List.length = some n := by
  have hbanks := snlRun_banks sim priorDraw posteriorDraw n
  have hlen : ∀ r' : Nat,
      ((if r' = 0 then priorSampleFn priorDraw n
        else posteriorSampleFn posteriorDraw r' n) : List (List Int)).length
        = n := by
    intro r'
    by_cases h : r' = 0 <;> simp [h, priorSampleFn, posteriorSampleFn]
  refine ⟨rfl, rfl, ?_, ?_, ?_, ?_, ?_, ?_⟩
  · rw [(hbanks k).1]
    simp
  · rw [(hbanks k).2]
    simp
  · rw [(hbanks (k + 1)).1, (hbanks k).1, List.range_succ, List.map_append]
    exact List.take_left' (by simp)
  · rw [(hbanks (k + 1)).2, (hbanks k).2, List.range_succ, List.map_append]
    exact List.take_left' (by simp)
  · rw [(hbanks k).1, List.getElem?_map, List.getElem?_range hr]
    simp [hlen r]
  · rw [(hbanks k).2, List.getElem?_map, List.getElem?_range hr]
    simp [hlen r]

/-- Witness for C6 with two rounds, three simulations per round, at round
entry 1. -/
theorem bank_lifecycle_witness :
    1 < 2 ∧
      ((snlRun simEx priorDrawEx posteriorDrawEx 3 0).parameter_bank = [] ∧
       (snlRun simEx priorDrawEx posteriorDrawEx 3 0).observation_bank = [] ∧
       (snlRun simEx priorDrawEx posteriorDrawEx 3 2).parameter_bank.length = 2 ∧
       (snlRun simEx priorDrawEx posteriorDrawEx 3 2).observation_bank.length = 2 ∧
       (snlRun simEx priorDrawEx posteriorDrawEx 3 (2 + 1)).parameter_bank.take 2
         = (snlRun simEx priorDrawEx posteriorDrawEx 3 2).parameter_bank ∧
       (snlRun simEx priorDrawEx posteriorDrawEx 3 (2 + 1)).observation_bank.take 2
         = (snlRun simEx priorDrawEx posteriorDrawEx 3 2).observation_bank ∧
       ((snlRun simEx priorDrawEx posteriorDrawEx 3 2).parameter_bank[1]?).map
           List.length = some 3 ∧
       ((snlRun simEx priorDrawEx posteriorDrawEx 3 2).observation_bank[1]?).map
           List.length = some 3) :=
  ⟨by norm_num, bank_lifecycle simEx priorDrawEx posteriorDrawEx 3 2 1 (by norm_num)⟩
